import Mathlib

/-!
# Verification of the `h` dotfiles engine

Shallow embedding of the dotfiles synchronization core of the `h` CLI
(`src/commands/dots.ts` and `src/utils/config.ts`).

JavaScript strings are modelled as `List Char` (`JSStr`): dotfile paths are
plain character sequences, and every string operation the source uses
(`split`, `join`, `startsWith`, `endsWith`, `includes`, `slice`, `replace`
of a leading prefix) is a direct list operation, keeping every definition
executable and decidable.

`jsSplit`/`jsJoin` model JavaScript `String.prototype.split` /
`Array.prototype.join` with a one-character separator.  `basename`,
`dirname` and `pjoin` model Node's `path.basename`, `path.dirname` and
`path.join` on ordinary relative slash-separated paths (no trailing
slashes, no `..` normalization) — exactly the inputs the dotfiles code
feeds them; theorems that rely on this carry a nonempty-segment hypothesis.

Interactive commands (`dotsApply`, `dotsRm`) are embedded as pure functions
from the pre-scanned filesystem state and the user's scripted answers to a
trace of observable effects (prompts, file writes, permission changes,
deletions, messages), mirroring the source's control flow statement by
statement.  Blank `console.log()` spacer lines are not modelled.
-/

/-- A JavaScript string, modelled as its sequence of characters. -/
abbrev JSStr := List Char

/-- Embed a Lean string literal as a `JSStr`. -/
def str (s : String) : JSStr := s.data

/-- JavaScript `s.split(sep)` for a one-character separator: splits on every
occurrence of `sep`, keeping empty groups (`"".split("/") == [""]`,
`"/".split("/") == ["", ""]`). -/
def jsSplit (sep : Char) : JSStr → List JSStr
  | [] => [[]]
  | c :: rest =>
    match jsSplit sep rest with
    | [] => [[]]
    | g :: gs => if c = sep then [] :: g :: gs else (c :: g) :: gs

/-- JavaScript `parts.join(sep)` for a one-character separator. -/
def jsJoin (sep : Char) : List JSStr → JSStr
  | [] => []
  | [g] => g
  | g :: g' :: gs => g ++ sep :: jsJoin sep (g' :: gs)

/-- Node `path.basename` on a relative slash-separated path: the part after
the last `/`. -/
def basename (p : JSStr) : JSStr := (jsSplit '/' p).getLastD []

/-- Node `path.dirname` on a relative slash-separated path: everything
before the last `/`, or `"."` when there is no `/`. -/
def dirname (p : JSStr) : JSStr :=
  let ps := jsSplit '/' p
  if ps.length ≤ 1 then str "." else jsJoin '/' ps.dropLast

/-- Node `path.join(a, b)` on ordinary relative segments: `a ++ "/" ++ b`. -/
def pjoin (a b : JSStr) : JSStr := a ++ '/' :: b

/-- JavaScript `s.replace(/^pre/, "")`: drop `pre` when it occurs leading,
otherwise leave `s` unchanged. -/
def stripLeading (pre s : JSStr) : JSStr :=
  if pre.isPrefixOf s then s.drop pre.length else s

/-- JavaScript `hay.includes(needle)` (substring containment). -/
def jsIncludes (needle : JSStr) : JSStr → Bool
  | [] => needle.isEmpty
  | c :: t => needle.isPrefixOf (c :: t) || jsIncludes needle t

/-- The per-segment map inside `toSourceName` (`dots.ts` 168–173): a segment
beginning with `.` becomes `dot_` + remainder, any other segment passes
through unchanged. -/
def encSeg (part : JSStr) : JSStr :=
  if (str ".").isPrefixOf part then str "dot_" ++ part.drop 1 else part

/-- `toSourceName` (`dots.ts` 166–193): converts a target-relative path to
the chezmoi-style source name.  Every `.`-prefixed segment becomes `dot_…`;
then, when a flag is set, the final segment (basename) is prefixed —
`private_` applied first, `executable_` prepended afterwards, so both flags
yield an `executable_private_…` basename. -/
def toSourceName (targetPath : JSStr) (isPrivate : Bool := false)
    (isExecutable : Bool := false) : JSStr :=
  let parts := jsSplit '/' targetPath
  let convertedParts := parts.map encSeg
  let result := jsJoin '/' convertedParts
  if isPrivate || isExecutable then
    let dir := dirname result
    let filename0 := basename result
    let filename1 := if isPrivate then str "private_" ++ filename0 else filename0
    let filename2 := if isExecutable then str "executable_" ++ filename1 else filename1
    if dir = str "." then filename2 else pjoin dir filename2
  else result

/-- The per-segment map inside `toTargetName` (`dots.ts` 201–213): strip one
leading `private_`, then one leading `executable_`, then turn a leading
`dot_` into `.`. -/
def decSeg (part : JSStr) : JSStr :=
  let p1 := stripLeading (str "private_") part
  let p2 := stripLeading (str "executable_") p1
  if (str "dot_").isPrefixOf p2 then '.' :: p2.drop 4 else p2

/-- `toTargetName` (`dots.ts` 199–216): decode a source name back to the
target-relative path, segment by segment. -/
def toTargetName (sourcePath : JSStr) : JSStr :=
  jsJoin '/' ((jsSplit '/' sourcePath).map decSeg)

/-- `isPrivateSource` (`dots.ts` 219–224): the basename starts with
`private_`, or any path segment starts with `private_`. -/
def isPrivateSource (sourcePath : JSStr) : Bool :=
  (str "private_").isPrefixOf (basename sourcePath) ||
    (jsSplit '/' sourcePath).any (fun p => (str "private_").isPrefixOf p)

/-- `isExecutableSource` (`dots.ts` 227–230): the basename starts with
`executable_`; ancestor segments are not consulted. -/
def isExecutableSource (sourcePath : JSStr) : Bool :=
  (str "executable_").isPrefixOf (basename sourcePath)

/-- `getFileMode` (`dots.ts` 233–241): `0o600` for private sources, else
`0o755` for executable sources, else `0o644`. -/
def getFileMode (sourceName : JSStr) : Nat :=
  if isPrivateSource sourceName then 0o600
  else if isExecutableSource sourceName then 0o755
  else 0o644

/-- Proof-layer helper: the flag prefixes `toSourceName` attaches to the
final segment (`private_` applied first, `executable_` prepended outside). -/
def flagSeg (isPrivate isExecutable : Bool) (filename : JSStr) : JSStr :=
  let f1 := if isPrivate then str "private_" ++ filename else filename
  if isExecutable then str "executable_" ++ f1 else f1

/-- Proof-layer helper: the segment list of the name `toSourceName`
produces; `toSourceName_eq_join` proves agreement with the source
function. -/
def sourceSegs (parts : List JSStr) (isPrivate isExecutable : Bool) : List JSStr :=
  let conv := parts.map encSeg
  if isPrivate || isExecutable then
    conv.dropLast ++ [flagSeg isPrivate isExecutable (conv.getLastD [])]
  else conv

/-- The per-pattern matcher inside `shouldIgnore` (`dots.ts` 247–263):
`*suffix` matches when the basename ends with `suffix`; `prefix*` when the
basename starts with it; otherwise exact basename match, or `/pattern/`
occurring in the path, or the path ending with `/pattern`. -/
def matchesPattern (filename path pattern : JSStr) : Bool :=
  if (str "*").isPrefixOf pattern then
    (pattern.drop 1).isSuffixOf filename
  else if (str "*").isSuffixOf pattern then
    pattern.dropLast.isPrefixOf filename
  else
    filename == pattern || jsIncludes (('/' :: pattern) ++ str "/") path ||
      ('/' :: pattern).isSuffixOf path

/-- `shouldIgnore` (`dots.ts` 244–266): true when some pattern matches. -/
def shouldIgnore (path : JSStr) (patterns : List JSStr) : Bool :=
  patterns.any (matchesPattern (basename path) path)

/-- The built-in ignore pattern list (`dots.ts` 24–33, `config.ts` 36–45). -/
def defaultIgnoredPatterns : List JSStr :=
  [str ".DS_Store", str "*.swp", str "*.swo", str "*~", str ".git",
   str "node_modules", str "__pycache__", str ".cache"]

/-- Filesystem as seen by a single scan: `hasFile` models `existsSync`,
`readF` models `readFile`, which can throw (`Except.error`). -/
structure SimFS where
  hasFile : JSStr → Bool
  readF : JSStr → Except Unit String

/-- `filesAreDifferent` (`dots.ts` 314–324): missing files are different;
read failures are caught and reported as different; otherwise full-content
inequality.  Total by construction — the source's `try`/`catch` never lets
an exception escape. -/
def filesAreDifferent (fs : SimFS) (file1 file2 : JSStr) : Bool :=
  if !(fs.hasFile file1) || !(fs.hasFile file2) then true
  else
    match fs.readF file1, fs.readF file2 with
    | .ok content1, .ok content2 => content1 != content2
    | _, _ => true

/-- The `ollama` block of the stored JSON config, key-presence tracked with
`Option` (`config.ts` 7–10). -/
structure POllama where
  model : Option String
  baseUrl : Option String
deriving DecidableEq

/-- The `ai` block of the stored JSON config (`config.ts` 5–11). -/
structure PAi where
  provider : Option String
  ollama : Option POllama
deriving DecidableEq

/-- The `updates` block of the stored JSON config (`config.ts` 12–15). -/
structure PUpdates where
  checkOnStartup : Option Bool
  lastChecked : Option String
deriving DecidableEq

/-- The `dots` block of the stored JSON config (`config.ts` 16–23); each
field is `Option` because a stored file may omit any key. -/
structure PDots where
  sourceDir : Option JSStr
  targetDir : Option JSStr
  ignoredPatterns : Option (List JSStr)
  autoPush : Option Bool
  checkInterval : Option Nat
  lastChecked : Option String
  diffTool : Option String
deriving DecidableEq

/-- A configuration value at the JSON level: each top-level key may be
absent, and a present nested block may itself be partial. -/
structure PConfig where
  ai : Option PAi
  updates : Option PUpdates
  dots : Option PDots
deriving DecidableEq

/-- `DEFAULT_CONFIG` (`config.ts` 26–49): all keys present. -/
def DEFAULT_CONFIG : PConfig :=
  { ai := some { provider := some "claude", ollama := none },
    updates := some { checkOnStartup := some true, lastChecked := none },
    dots := some
      { sourceDir := some (str "~/.local/share/chezmoi"),
        targetDir := some (str "~"),
        ignoredPatterns := some defaultIgnoredPatterns,
        autoPush := some false,
        checkInterval := some 24,
        lastChecked := none,
        diffTool := none } }

/-- One key of the JavaScript object spread `{...dflt, ...stored}`: the
stored value wins when the key is present, otherwise the default is kept.
The stored value is taken wholesale — it is not merged recursively. -/
def jsSpread {A : Type} (dflt stored : Option A) : Option A :=
  match stored with
  | some v => some v
  | none => dflt

/-- Result of `loadConfig`: the returned configuration plus whether
`saveConfig` was called (file created from defaults) and whether a parse
error was reported. -/
structure LoadResult where
  config : PConfig
  wroteDefaults : Bool
  reportedParseError : Bool
deriving DecidableEq

/-- `loadConfig` (`config.ts` 55–73).  `fileExists` models
`existsSync(configPath)`; `parsed = none` models `JSON.parse` throwing.  A
missing file writes and returns the defaults; a parse failure reports the
error and returns the defaults without writing; otherwise the stored object
is merged with `{...DEFAULT_CONFIG, ...config}` — a shallow, top-level-only
spread. -/
def loadConfig (fileExists : Bool) (parsed : Option PConfig) : LoadResult :=
  if !fileExists then
    { config := DEFAULT_CONFIG, wroteDefaults := true, reportedParseError := false }
  else
    match parsed with
    | none => { config := DEFAULT_CONFIG, wroteDefaults := false, reportedParseError := true }
    | some c =>
      { config :=
          { ai := jsSpread DEFAULT_CONFIG.ai c.ai,
            updates := jsSpread DEFAULT_CONFIG.updates c.updates,
            dots := jsSpread DEFAULT_CONFIG.dots c.dots },
        wroteDefaults := false,
        reportedParseError := false }

/-- A `dots` block with every nested key missing. -/
def emptyPDots : PDots :=
  { sourceDir := none, targetDir := none, ignoredPatterns := none,
    autoPush := none, checkInterval := none, lastChecked := none, diffTool := none }

/-- A stored config whose `dots` block is present but has every nested key
missing — the counterexample input for the default-merge claim. -/
def dotsOnlyStored : PConfig :=
  { ai := none, updates := none, dots := some emptyPDots }

/-- The `action` field of `GitCommitOptions` (`dots.ts` 41–46). -/
inductive GitAction
  | add
  | sync
  | remove
deriving DecidableEq

/-- `GitCommitOptions` (`dots.ts` 41–46); the optional `updatedFiles` /
`removedFiles` arrays are modelled with `[]` for absent. -/
structure GitCommitOptions where
  action : GitAction
  files : List String
  updatedFiles : List String
  removedFiles : List String
deriving DecidableEq

/-- The commit-message construction of `gitCommitAndPush` (`dots.ts`
60–90); `none` models the `sync` early return when there is nothing to
commit. -/
def buildCommitMessage (options : GitCommitOptions) : Option String :=
  match options.action with
  | .add =>
    if options.files.length == 1 then
      some ("dots: add " ++ options.files.headD "")
    else
      some ("dots: add " ++ toString options.files.length ++ " files\n\nAdded:\n" ++
        String.intercalate "\n" (options.files.map (fun f => "- " ++ f)))
  | .remove => some ("dots: remove " ++ options.files.headD "")
  | .sync =>
    let body :=
      (if options.updatedFiles.isEmpty then []
       else "\nUpdated:" :: options.updatedFiles.map (fun f => "- " ++ f)) ++
      (if options.removedFiles.isEmpty then []
       else "\nRemoved:" :: options.removedFiles.map (fun f => "- " ++ f))
    if body.isEmpty then none
    else some ("dots: sync" ++ "\n" ++ String.intercalate "\n" body)

/-- Observable outcome of one `gitCommitAndPush` call.  `fileWrites` /
`fileDeletes` record filesystem mutations performed by the helper — the
source performs none, so both are `[]` on every path, which is what makes
"the preceding file-level mutation is not rolled back" checkable. -/
structure GitPushResult where
  attemptedCommit : Bool
  attemptedPush : Bool
  warnedNotRepo : Bool
  warnedPushFailed : Bool
  warnedGitError : Bool
  printedPushSuccess : Bool
  fileWrites : List JSStr
  fileDeletes : List JSStr
deriving DecidableEq

/-- `gitCommitAndPush` (`dots.ts` 48–119).  `autoPush` is the config flag
(line 50), `gitRepoExists` models `existsSync(join(sourceDir, ".git"))`
(line 55), `spawnOk = false` models `Bun.spawn` throwing (caught at line
116), and `pushExitCode` is the exit status of `git push`. -/
def gitCommitAndPush (autoPush gitRepoExists spawnOk : Bool) (pushExitCode : Nat)
    (options : GitCommitOptions) : GitPushResult :=
  if !autoPush then
    { attemptedCommit := false, attemptedPush := false, warnedNotRepo := false,
      warnedPushFailed := false, warnedGitError := false, printedPushSuccess := false,
      fileWrites := [], fileDeletes := [] }
  else if !gitRepoExists then
    { attemptedCommit := false, attemptedPush := false, warnedNotRepo := true,
      warnedPushFailed := false, warnedGitError := false, printedPushSuccess := false,
      fileWrites := [], fileDeletes := [] }
  else
    match buildCommitMessage options with
    | none =>
      { attemptedCommit := false, attemptedPush := false, warnedNotRepo := false,
        warnedPushFailed := false, warnedGitError := false, printedPushSuccess := false,
        fileWrites := [], fileDeletes := [] }
    | some _ =>
      if !spawnOk then
        { attemptedCommit := false, attemptedPush := false, warnedNotRepo := false,
          warnedPushFailed := false, warnedGitError := true, printedPushSuccess := false,
          fileWrites := [], fileDeletes := [] }
      else if pushExitCode == 0 then
        { attemptedCommit := true, attemptedPush := true, warnedNotRepo := false,
          warnedPushFailed := false, warnedGitError := false, printedPushSuccess := true,
          fileWrites := [], fileDeletes := [] }
      else
        { attemptedCommit := true, attemptedPush := true, warnedNotRepo := false,
          warnedPushFailed := true, warnedGitError := false, printedPushSuccess := false,
          fileWrites := [], fileDeletes := [] }

/-- A single-file add, used to instantiate the auto-push gating theorem. -/
def gitOptionsExample : GitCommitOptions :=
  { action := .add, files := ["x"], updatedFiles := [], removedFiles := [] }

/-- A user choice in the modified-file resolution menu of `dotsApply`
(`dots.ts` 601–609). -/
inductive MenuChoice
  | viewInline
  | openDifftool
  | applyChoice
  | skipChoice
deriving DecidableEq

/-- Terminal state of the resolution loop: the user chose to apply, chose to
skip, or the scripted answers ran out (the real loop would keep
prompting). -/
inductive ResolveOutcome
  | resolvedApply
  | resolvedSkip
  | outOfInput
deriving DecidableEq

/-- Observable effects of one `dotsApply` run (`dots.ts` 506–661):
messages, the two prompts, directory creation, file writes, permission
changes, and the final applied/skipped summary. -/
inductive ApplyEffect
  | scanInfo
  | allInSyncSuccess
  | foundFiles (n : Nat)
  | promptCheckbox (choices : List JSStr)
  | noSelectionInfo
  | modifiedHeader (targetName : JSStr)
  | promptResolveMenu (targetName : JSStr)
  | showInlineDiff (targetName : JSStr)
  | openExternalDiffTool (targetName : JSStr)
  | skippedInfo (targetName : JSStr)
  | ensureDir (dir : JSStr)
  | writeTarget (path : JSStr)
  | chmodTarget (path : JSStr) (mode : Nat)
  | appliedSuccess (targetName : JSStr)
  | summary (applied skipped : Nat)
  | missingSourceDirError
deriving DecidableEq

/-- One entry of the `filesToApply` array built by `dotsApply`
(`dots.ts` 523–529). -/
structure FileToApply where
  sourceFile : JSStr
  targetName : JSStr
  sourcePath : JSStr
  targetPath : JSStr
  isNew : Bool
deriving DecidableEq

/-- Trace and counter contribution of one iteration of the per-file apply
loop (`dots.ts` 590–656). -/
structure StepResult where
  trace : List ApplyEffect
  appliedDelta : Nat
  skippedDelta : Nat
deriving DecidableEq

/-- The `.git` skip test used by every scan loop
(`dots.ts` 532, 685, 809, …). -/
def isGitPath (sourceFile : JSStr) : Bool :=
  (str ".git/").isPrefixOf sourceFile || sourceFile == str ".git"

/-- The scan phase of `dotsApply` (`dots.ts` 531–549): every non-`.git`
source file whose decoded target differs is collected, flagged `isNew` when
the target does not exist. -/
def computeFilesToApply (fs : SimFS) (sourceDir targetDir : JSStr)
    (sourceFiles : List JSStr) : List FileToApply :=
  sourceFiles.filterMap fun sourceFile =>
    if isGitPath sourceFile then none
    else
      let targetName := toTargetName sourceFile
      let sourcePath := pjoin sourceDir sourceFile
      let targetPath := pjoin targetDir targetName
      if filesAreDifferent fs sourcePath targetPath then
        some { sourceFile := sourceFile, targetName := targetName,
               sourcePath := sourcePath, targetPath := targetPath,
               isNew := !(fs.hasFile targetPath) }
      else none

/-- The `while (!done)` resolution-menu loop for a modified file
(`dots.ts` 600–636), driven by the user's scripted choices: diff views loop
back to the menu; `apply` and `skip` are terminal. -/
def resolveModified (targetName : JSStr) : List MenuChoice → List ApplyEffect × ResolveOutcome
  | [] => ([], .outOfInput)
  | .viewInline :: rest =>
    let r := resolveModified targetName rest
    (.promptResolveMenu targetName :: .showInlineDiff targetName :: r.1, r.2)
  | .openDifftool :: rest =>
    let r := resolveModified targetName rest
    (.promptResolveMenu targetName :: .openExternalDiffTool targetName :: r.1, r.2)
  | .applyChoice :: _ => ([.promptResolveMenu targetName], .resolvedApply)
  | .skipChoice :: _ =>
    ([.promptResolveMenu targetName, .skippedInfo targetName], .resolvedSkip)

/-- The copy block of the apply loop (`dots.ts` 641–655): ensure the parent
directory, write the target, chmod it to the mode derived from the source
name, report success. -/
def copyEffects (f : FileToApply) : List ApplyEffect :=
  [.ensureDir (dirname f.targetPath), .writeTarget f.targetPath,
   .chmodTarget f.targetPath (getFileMode f.sourceFile), .appliedSuccess f.targetName]

/-- One iteration of the per-file apply loop (`dots.ts` 590–656): a file
whose target name was not selected in the upfront checkbox is skipped
outright (line 591); a selected modified file goes through the resolution
menu first; a selected new file is copied directly. -/
def applyFileStep (selection : List JSStr) (script : JSStr → List MenuChoice)
    (f : FileToApply) : StepResult :=
  if f.targetName ∈ selection then
    if f.isNew then { trace := copyEffects f, appliedDelta := 1, skippedDelta := 0 }
    else
      let r := resolveModified f.targetName (script f.targetName)
      match r.2 with
      | .resolvedApply =>
        { trace := ApplyEffect.modifiedHeader f.targetName :: r.1 ++ copyEffects f,
          appliedDelta := 1, skippedDelta := 0 }
      | .resolvedSkip =>
        { trace := ApplyEffect.modifiedHeader f.targetName :: r.1,
          appliedDelta := 0, skippedDelta := 1 }
      | .outOfInput =>
        { trace := ApplyEffect.modifiedHeader f.targetName :: r.1,
          appliedDelta := 0, skippedDelta := 0 }
  else { trace := [], appliedDelta := 0, skippedDelta := 0 }

/-- `dotsApply` (`dots.ts` 506–661) as an effect trace.  `sourceDirExists`
models `existsSync(sourceDir)`; `sourceFiles` is the result of
`listFilesRecursively(sourceDir)`; `selection` is the checkbox answer and
`script` the per-file menu answers.  The skipped counter starts at
`filesToApply.length - selection.length` (line 588) and the applied/skipped
totals are reported in the final summary (line 659). -/
def dotsApply (fs : SimFS) (sourceDirExists : Bool) (sourceDir targetDir : JSStr)
    (sourceFiles : List JSStr) (selection : List JSStr)
    (script : JSStr → List MenuChoice) : List ApplyEffect :=
  if !sourceDirExists then [.missingSourceDirError]
  else
    let filesToApply := computeFilesToApply fs sourceDir targetDir sourceFiles
    if filesToApply.isEmpty then [.scanInfo, .allInSyncSuccess]
    else
      let header := [ApplyEffect.scanInfo, ApplyEffect.foundFiles filesToApply.length,
        ApplyEffect.promptCheckbox (filesToApply.map FileToApply.targetName)]
      if selection.isEmpty then header ++ [.noSelectionInfo]
      else
        let steps := filesToApply.map (applyFileStep selection script)
        let applied := (steps.map StepResult.appliedDelta).sum
        let skipped := filesToApply.length - selection.length +
          (steps.map StepResult.skippedDelta).sum
        header ++ (steps.map StepResult.trace).flatten ++ [.summary applied skipped]

/-- Observable effects of one `dotsRm` run (`dots.ts` 978–1041). -/
inductive RmEffect
  | errorOutsideHome
  | errorNotFound
  | confirmPrompt (sourceFile : JSStr)
  | cancelledInfo
  | unlink (path : JSStr)
  | removedSuccess (sourceFile : JSStr)
  | noteTargetKept (relTarget : JSStr)
  | gitAutoPush
deriving DecidableEq

/-- `expandPath` (`dots.ts` 10–15): a leading `~` is replaced by the home
directory (`join(HOME, path.slice(1))`, which concatenates here because the
remainder starts with `/` or is empty). -/
def expandPath (home path : JSStr) : JSStr :=
  if (str "~").isPrefixOf path then home ++ path.drop 1 else path

/-- The absolute-path resolution at the top of `dotsRm` and `dotsAdd`
(`dots.ts` 984–987): expand `~`, then resolve a relative argument against
the current working directory. -/
def resolveAbsolute (home cwd targetPath : JSStr) : JSStr :=
  let expanded := expandPath home targetPath
  if (str "/").isPrefixOf expanded then expanded else pjoin cwd targetPath

/-- Node `path.relative(base, target)` for a target lying inside `base` at a
path-component boundary: drop the base prefix and a leading slash. -/
def jsRelative (base target : JSStr) : JSStr :=
  let rest := target.drop base.length
  if (str "/").isPrefixOf rest then rest.drop 1 else rest

/-- `dotsRm` (`dots.ts` 978–1041) as an effect trace: resolve the argument,
require it inside the home directory, find the first source file whose
decoded name equals the target-relative path, confirm, and on confirmation
unlink that source file only, note that the target copy was kept, and hand
off to the auto-push helper. -/
def dotsRm (home cwd sourceDir : JSStr) (sourceFiles : List JSStr)
    (targetPath : JSStr) (confirmed : Bool) : List RmEffect :=
  let absoluteTarget := resolveAbsolute home cwd targetPath
  if !(home.isPrefixOf absoluteTarget) then [.errorOutsideHome]
  else
    let relativeTarget := jsRelative home absoluteTarget
    match sourceFiles.find? (fun sourceFile => toTargetName sourceFile == relativeTarget) with
    | none => [.errorNotFound]
    | some foundSource =>
      let sourcePath := pjoin sourceDir foundSource
      if !confirmed then [.confirmPrompt foundSource, .cancelledInfo]
      else
        [.confirmPrompt foundSource, .unlink sourcePath, .removedSuccess foundSource,
         .noteTargetKept relativeTarget, .gitAutoPush]

/-- A filesystem with one managed file whose repo and home copies agree —
the instantiation input for the apply-no-op theorem. -/
def syncedFsExample : SimFS :=
  { hasFile := fun p => p == str "repo/dot_zshrc" || p == str "home/.zshrc",
    readF := fun p =>
      if p == str "repo/dot_zshrc" || p == str "home/.zshrc" then Except.ok "content"
      else Except.error () }

/-- A filesystem with two repo files and no home copies — the instantiation
input for the deselection theorem. -/
def newFilesFsExample : SimFS :=
  { hasFile := fun p => p == str "repo/dot_a" || p == str "repo/dot_b",
    readF := fun p =>
      if p == str "repo/dot_a" || p == str "repo/dot_b" then Except.ok "x"
      else Except.error () }

/-- The drifted file the scripted user leaves unchecked in the deselection
instantiation. -/
def deselectedFileExample : FileToApply :=
  { sourceFile := str "dot_a", targetName := str ".a", sourcePath := str "repo/dot_a",
    targetPath := str "home/.a", isNew := true }

/-! ## Split/join infrastructure lemmas -/

theorem jsSplit_ne_nil (sep : Char) (s : JSStr) : jsSplit sep s ≠ [] := by
  induction s with
  | nil => simp [jsSplit]
  | cons c rest ih =>
    simp only [jsSplit]
    cases h : jsSplit sep rest with
    | nil => simp
    | cons g gs => by_cases hc : c = sep <;> simp [hc]

theorem jsJoin_jsSplit (sep : Char) (s : JSStr) : jsJoin sep (jsSplit sep s) = s := by
  induction s with
  | nil => rfl
  | cons c rest ih =>
    simp only [jsSplit]
    cases h : jsSplit sep rest with
    | nil => exact absurd h (jsSplit_ne_nil sep rest)
    | cons g gs =>
      rw [h] at ih
      by_cases hc : c = sep
      · subst hc
        simp only [if_pos rfl, jsJoin]
        cases gs <;> simp_all [jsJoin]
      · simp only [if_neg hc]
        cases gs with
        | nil => simp_all [jsJoin]
        | cons g2 gs2 => simp_all [jsJoin]

theorem not_mem_of_mem_jsSplit (sep : Char) (s : JSStr) :
    ∀ g ∈ jsSplit sep s, sep ∉ g := by
  induction s with
  | nil => simp [jsSplit]
  | cons c rest ih =>
    simp only [jsSplit]
    cases h : jsSplit sep rest with
    | nil => exact absurd h (jsSplit_ne_nil sep rest)
    | cons g gs =>
      rw [h] at ih
      by_cases hc : c = sep
      · subst hc; simp_all
      · simp only [if_neg hc]
        intro g' hg'
        rcases List.mem_cons.1 hg' with hg' | hg'
        · subst hg'
          intro hmem
          rcases List.mem_cons.1 hmem with h' | h'
          · exact hc h'.symm
          · exact ih g (List.mem_cons_self g gs) h'
        · exact ih g' (List.mem_cons_of_mem g hg')

theorem jsSplit_single (sep : Char) (g : JSStr) (h : sep ∉ g) : jsSplit sep g = [g] := by
  induction g with
  | nil => rfl
  | cons c rest ih =>
    have hc : c ≠ sep := fun hc => h (hc ▸ List.mem_cons_self c rest)
    have hrest : sep ∉ rest := fun hm => h (List.mem_cons_of_mem c hm)
    simp only [jsSplit, ih hrest, if_neg hc]

theorem jsSplit_append_sep (sep : Char) (g t : JSStr) (h : sep ∉ g) :
    jsSplit sep (g ++ sep :: t) = g :: jsSplit sep t := by
  induction g with
  | nil =>
    simp only [List.nil_append, jsSplit]
    cases h' : jsSplit sep t with
    | nil => exact absurd h' (jsSplit_ne_nil sep t)
    | cons a as => simp
  | cons c rest ih =>
    have hc : c ≠ sep := fun hc => h (hc ▸ List.mem_cons_self c rest)
    have hrest : sep ∉ rest := fun hm => h (List.mem_cons_of_mem c hm)
    have hstep : (c :: rest) ++ sep :: t = c :: (rest ++ sep :: t) := rfl
    rw [hstep]
    simp only [jsSplit, ih hrest, if_neg hc]

theorem jsSplit_jsJoin (sep : Char) (l : List JSStr) (hne : l ≠ [])
    (h : ∀ g ∈ l, sep ∉ g) : jsSplit sep (jsJoin sep l) = l := by
  induction l with
  | nil => exact absurd rfl hne
  | cons g gs ih =>
    cases gs with
    | nil => exact jsSplit_single sep g (h g (List.mem_cons_self g []))
    | cons g2 gs2 =>
      have h1 : sep ∉ g := h g (List.mem_cons_self g _)
      have h2 : ∀ x ∈ g2 :: gs2, sep ∉ x := fun x hx => h x (List.mem_cons_of_mem g hx)
      simp only [jsJoin, jsSplit_append_sep sep g _ h1, ih (by simp) h2]

theorem jsJoin_append_single (sep : Char) (l : List JSStr) (x : JSStr) (h : l ≠ []) :
    jsJoin sep (l ++ [x]) = jsJoin sep l ++ sep :: x := by
  induction l with
  | nil => exact absurd rfl h
  | cons g gs ih =>
    cases gs with
    | nil => simp [jsJoin]
    | cons g2 gs2 =>
      have := ih (by simp)
      simp only [List.cons_append, jsJoin] at this ⊢
      cases gs2 <;> simp_all [jsJoin, List.append_assoc]

/-! ## Prefix and segment lemmas -/

theorem isPrefixOf_cons_ne {a b : Char} (pre s : JSStr) (h : a ≠ b) :
    (a :: pre).isPrefixOf (b :: s) = false := by
  simp [List.isPrefixOf, h]

theorem isPrefixOf_append_self (pre t : JSStr) : pre.isPrefixOf (pre ++ t) = true :=
  List.isPrefixOf_iff_prefix.2 (List.prefix_append pre t)

theorem stripLeading_append (pre t : JSStr) : stripLeading pre (pre ++ t) = t := by
  simp [stripLeading, isPrefixOf_append_self, List.drop_left]

theorem stripLeading_of_neg (pre s : JSStr) (h : pre.isPrefixOf s = false) :
    stripLeading pre s = s := by
  simp [stripLeading, h]

theorem encSeg_dot (t : JSStr) : encSeg ('.' :: t) = str "dot_" ++ t := by
  simp [encSeg, str, List.isPrefixOf]

theorem encSeg_not_dot (part : JSStr) (h : (str ".").isPrefixOf part = false) :
    encSeg part = part := by
  simp [encSeg, h]

theorem exists_of_dot_pre (part : JSStr) (h : (str ".").isPrefixOf part = true) :
    ∃ t, part = '.' :: t := by
  obtain ⟨t, ht⟩ := List.isPrefixOf_iff_prefix.1 h
  exact ⟨t, ht.symm⟩

theorem slash_not_mem_encSeg (part : JSStr) (h : '/' ∉ part) : '/' ∉ encSeg part := by
  cases hd : (str ".").isPrefixOf part with
  | true =>
    obtain ⟨t, ht⟩ := exists_of_dot_pre part hd
    subst ht
    rw [encSeg_dot]
    intro hmem
    rcases List.mem_append.1 hmem with hm | hm
    · revert hm; decide
    · exact h (List.mem_cons_of_mem _ hm)
  | false =>
    rw [encSeg_not_dot part hd]
    exact h

theorem encSeg_ne_dot (part : JSStr) : encSeg part ≠ str "." := by
  cases hd : (str ".").isPrefixOf part with
  | true =>
    obtain ⟨t, ht⟩ := exists_of_dot_pre part hd
    subst ht
    rw [encSeg_dot]
    intro heq
    exact absurd (congrArg List.length heq) (by simp [str])
  | false =>
    rw [encSeg_not_dot part hd]
    intro heq
    subst heq
    revert hd
    decide

theorem priv_not_pre_dotu (t : JSStr) :
    (str "private_").isPrefixOf (str "dot_" ++ t) = false :=
  isPrefixOf_cons_ne (str "rivate_") (str "ot_" ++ t) (by decide)

theorem exec_not_pre_dotu (t : JSStr) :
    (str "executable_").isPrefixOf (str "dot_" ++ t) = false :=
  isPrefixOf_cons_ne (str "xecutable_") (str "ot_" ++ t) (by decide)

theorem priv_not_pre_execu (t : JSStr) :
    (str "private_").isPrefixOf (str "executable_" ++ t) = false :=
  isPrefixOf_cons_ne (str "rivate_") (str "xecutable_" ++ t) (by decide)

theorem exec_not_pre_privu (t : JSStr) :
    (str "executable_").isPrefixOf (str "private_" ++ t) = false :=
  isPrefixOf_cons_ne (str "xecutable_") (str "rivate_" ++ t) (by decide)

theorem dot_not_pre_privu (t : JSStr) :
    (str "dot_").isPrefixOf (str "private_" ++ t) = false :=
  isPrefixOf_cons_ne (str "ot_") (str "rivate_" ++ t) (by decide)

theorem drop_four_dotu (u : JSStr) : (str "dot_" ++ u).drop 4 = u :=
  List.drop_left (str "dot_") u

theorem decSeg_dotu (t : JSStr) : decSeg (str "dot_" ++ t) = '.' :: t := by
  simp only [decSeg, stripLeading_of_neg _ _ (priv_not_pre_dotu t),
    stripLeading_of_neg _ _ (exec_not_pre_dotu t), isPrefixOf_append_self,
    if_true, drop_four_dotu]

theorem decSeg_encSeg (part : JSStr)
    (h1 : (str "dot_").isPrefixOf part = false)
    (h2 : (str "private_").isPrefixOf part = false)
    (h3 : (str "executable_").isPrefixOf part = false) :
    decSeg (encSeg part) = part := by
  cases hd : (str ".").isPrefixOf part with
  | true =>
    obtain ⟨t, ht⟩ := exists_of_dot_pre part hd
    subst ht
    rw [encSeg_dot, decSeg_dotu]
  | false =>
    rw [encSeg_not_dot part hd]
    simp only [decSeg, stripLeading_of_neg _ _ h2, stripLeading_of_neg _ _ h3, h1,
      Bool.false_eq_true, if_false]

theorem decSeg_private_encSeg (part : JSStr)
    (h1 : (str "dot_").isPrefixOf part = false)
    (h3 : (str "executable_").isPrefixOf part = false) :
    decSeg (str "private_" ++ encSeg part) = part := by
  cases hd : (str ".").isPrefixOf part with
  | true =>
    obtain ⟨t, ht⟩ := exists_of_dot_pre part hd
    subst ht
    rw [encSeg_dot]
    simp only [decSeg, stripLeading_append, stripLeading_of_neg _ _ (exec_not_pre_dotu t),
      isPrefixOf_append_self, if_true, drop_four_dotu]
  | false =>
    rw [encSeg_not_dot part hd]
    simp only [decSeg, stripLeading_append, stripLeading_of_neg _ _ h3, h1,
      Bool.false_eq_true, if_false]

theorem decSeg_executable_encSeg (part : JSStr)
    (h1 : (str "dot_").isPrefixOf part = false)
    (h2 : (str "private_").isPrefixOf part = false) :
    decSeg (str "executable_" ++ encSeg part) = part := by
  cases hd : (str ".").isPrefixOf part with
  | true =>
    obtain ⟨t, ht⟩ := exists_of_dot_pre part hd
    subst ht
    rw [encSeg_dot]
    simp only [decSeg, stripLeading_of_neg _ _ (priv_not_pre_execu _),
      stripLeading_append, isPrefixOf_append_self, if_true, drop_four_dotu]
  | false =>
    rw [encSeg_not_dot part hd]
    simp only [decSeg, stripLeading_of_neg _ _ (priv_not_pre_execu _),
      stripLeading_append, h1, Bool.false_eq_true, if_false]

/-! ## Characterization of `toSourceName` as a joined segment list -/

theorem map_encSeg_ne_nil (parts : List JSStr) (h : parts ≠ []) :
    parts.map encSeg ≠ [] := by
  simpa using h

theorem slash_not_mem_map_encSeg (p : JSStr) :
    ∀ g ∈ (jsSplit '/' p).map encSeg, '/' ∉ g := by
  intro g hg
  obtain ⟨part, hpart, rfl⟩ := List.mem_map.1 hg
  exact slash_not_mem_encSeg part (not_mem_of_mem_jsSplit '/' p part hpart)

theorem basename_join (conv : List JSStr) (hne : conv ≠ [])
    (hfree : ∀ g ∈ conv, '/' ∉ g) :
    basename (jsJoin '/' conv) = conv.getLastD [] := by
  unfold basename
  rw [jsSplit_jsJoin '/' conv hne hfree]

theorem dirname_join (conv : List JSStr) (hne : conv ≠ [])
    (hfree : ∀ g ∈ conv, '/' ∉ g) :
    dirname (jsJoin '/' conv) =
      if conv.length ≤ 1 then str "." else jsJoin '/' conv.dropLast := by
  unfold dirname
  rw [jsSplit_jsJoin '/' conv hne hfree]

theorem flag_graft (conv : List JSStr) (x : JSStr) (hne : conv ≠ [])
    (hnd : str "." ∉ conv) (hfree : ∀ g ∈ conv, '/' ∉ g) :
    (if (if conv.length ≤ 1 then str "." else jsJoin '/' conv.dropLast) = str "." then x
     else pjoin (if conv.length ≤ 1 then str "." else jsJoin '/' conv.dropLast) x) =
    jsJoin '/' (conv.dropLast ++ [x]) := by
  cases conv with
  | nil => exact absurd rfl hne
  | cons g gs =>
    cases gs with
    | nil => simp [jsJoin]
    | cons g2 gs2 =>
      have hlen : ¬(g :: g2 :: gs2).length ≤ 1 := by simp
      rw [if_neg hlen]
      have hdropne : (g :: g2 :: gs2).dropLast ≠ [] := by
        intro hnil
        have := congrArg List.length hnil
        simp at this
      have hdir : jsJoin '/' (g :: g2 :: gs2).dropLast ≠ str "." := by
        intro heq
        have hdfree : ∀ y ∈ (g :: g2 :: gs2).dropLast, '/' ∉ y := fun y hy =>
          hfree y ((List.dropLast_sublist _).subset hy)
        have hs := jsSplit_jsJoin '/' _ hdropne hdfree
        rw [heq] at hs
        have hdot : jsSplit '/' (str ".") = [str "."] := by decide
        rw [hdot] at hs
        have hmem : str "." ∈ (g :: g2 :: gs2).dropLast := by
          rw [← hs]; exact List.mem_singleton_self _
        exact hnd ((List.dropLast_sublist _).subset hmem)
      rw [if_neg hdir, pjoin, ← jsJoin_append_single '/' _ _ hdropne]

theorem toSourceName_eq_join (p : JSStr) (ip ie : Bool) :
    toSourceName p ip ie = jsJoin '/' (sourceSegs (jsSplit '/' p) ip ie) := by
  have hne : (jsSplit '/' p).map encSeg ≠ [] :=
    map_encSeg_ne_nil _ (jsSplit_ne_nil '/' p)
  have hfree := slash_not_mem_map_encSeg p
  have hnd : str "." ∉ (jsSplit '/' p).map encSeg := by
    intro hmem
    obtain ⟨part, _, hpart⟩ := List.mem_map.1 hmem
    exact encSeg_ne_dot part hpart
  cases hie : (ip || ie) with
  | false =>
    simp only [toSourceName, sourceSegs, hie, Bool.false_eq_true, if_false]
  | true =>
    simp only [toSourceName, sourceSegs, hie, if_true,
      basename_join _ hne hfree, dirname_join _ hne hfree]
    exact flag_graft _ (flagSeg ip ie (((jsSplit '/' p).map encSeg).getLastD [])) hne hnd hfree

theorem flagSeg_false_false (f : JSStr) : flagSeg false false f = f := rfl

theorem sourceSegs_concat (init : List JSStr) (last : JSStr) (ip ie : Bool) :
    sourceSegs (init ++ [last]) ip ie =
      init.map encSeg ++ [flagSeg ip ie (encSeg last)] := by
  unfold sourceSegs
  cases hie : (ip || ie) with
  | true =>
    simp only [if_true, List.map_append, List.map_cons, List.map_nil,
      List.dropLast_concat, List.getLastD_concat]
  | false =>
    obtain ⟨hip, hie'⟩ := Bool.or_eq_false_iff.1 hie
    subst hip; subst hie'
    simp only [Bool.or_self, Bool.false_eq_true, if_false, List.map_append,
      List.map_cons, List.map_nil, flagSeg_false_false]

theorem slash_not_mem_flagSeg (ip ie : Bool) (f : JSStr) (h : '/' ∉ f) :
    '/' ∉ flagSeg ip ie f := by
  have h1 : '/' ∉ str "private_" := by decide
  have h2 : '/' ∉ str "executable_" := by decide
  unfold flagSeg
  cases ip <;> cases ie <;> simp_all [List.mem_append]

theorem isPrivateSource_join (segs : List JSStr) (hne : segs ≠ [])
    (hfree : ∀ g ∈ segs, '/' ∉ g) :
    isPrivateSource (jsJoin '/' segs) =
      ((str "private_").isPrefixOf (segs.getLastD []) ||
        segs.any fun g => (str "private_").isPrefixOf g) := by
  unfold isPrivateSource
  rw [basename_join segs hne hfree, jsSplit_jsJoin '/' segs hne hfree]

theorem isExecutableSource_join (segs : List JSStr) (hne : segs ≠ [])
    (hfree : ∀ g ∈ segs, '/' ∉ g) :
    isExecutableSource (jsJoin '/' segs) =
      (str "executable_").isPrefixOf (segs.getLastD []) := by
  unfold isExecutableSource
  rw [basename_join segs hne hfree]

theorem priv_not_pre_encSeg (g : JSStr)
    (h : (str "private_").isPrefixOf g = false) :
    (str "private_").isPrefixOf (encSeg g) = false := by
  cases hd : (str ".").isPrefixOf g with
  | true =>
    obtain ⟨t, ht⟩ := exists_of_dot_pre g hd
    subst ht
    rw [encSeg_dot]
    exact priv_not_pre_dotu t
  | false => rw [encSeg_not_dot g hd]; exact h

theorem exec_not_pre_encSeg (g : JSStr)
    (h : (str "executable_").isPrefixOf g = false) :
    (str "executable_").isPrefixOf (encSeg g) = false := by
  cases hd : (str ".").isPrefixOf g with
  | true =>
    obtain ⟨t, ht⟩ := exists_of_dot_pre g hd
    subst ht
    rw [encSeg_dot]
    exact exec_not_pre_dotu t
  | false => rw [encSeg_not_dot g hd]; exact h

/-! ## Miscellaneous helpers -/

theorem jsSpread_some_isSome {A : Type} (d : A) (stored : Option A) :
    (jsSpread (some d) stored).isSome = true := by
  cases stored <;> rfl

theorem filesAreDifferent_false_of_ok (fs : SimFS) (file1 file2 : JSStr) (c : String)
    (h1 : fs.hasFile file1 = true) (h2 : fs.hasFile file2 = true)
    (hr1 : fs.readF file1 = Except.ok c) (hr2 : fs.readF file2 = Except.ok c) :
    filesAreDifferent fs file1 file2 = false := by
  unfold filesAreDifferent
  simp [h1, h2, hr1, hr2]

/-! ## Claim theorems -/

/-- C1 counterexample: the round-trip claimed for every flag pair fails when
both flags are set.  Encoding `.foo` as private and executable yields
`executable_private_dot_foo`, and decoding strips `private_` before
`executable_`, so the `private_` survives: the decode returns
`private_dot_foo`, not `.foo`. -/
theorem roundtrip_both_flags_counterexample :
    toTargetName (toSourceName (str ".foo") true true) ≠ str ".foo" := by decide

/-- C1 (amended): path-codec round-trip.  For every relative target path
whose segments are nonempty and do not already begin with the reserved
prefixes `dot_`, `private_` or `executable_`, and for every flag pair with
at most one flag set, decoding the encoded name gives back the original
path: `toTargetName (toSourceName p priv exec) = p`.  (With both flags set
the round-trip fails — see the counterexample.) -/
theorem toTargetName_toSourceName (p : JSStr) (ip ie : Bool)
    (hseg : ∀ g ∈ jsSplit '/' p, g ≠ [] ∧ (str "dot_").isPrefixOf g = false ∧
      (str "private_").isPrefixOf g = false ∧ (str "executable_").isPrefixOf g = false)
    (hflags : ¬(ip = true ∧ ie = true)) :
    toTargetName (toSourceName p ip ie) = p := by
  rw [toSourceName_eq_join]
  rcases List.eq_nil_or_concat (jsSplit '/' p) with hnil | ⟨init, last, hsplit⟩
  · exact absurd hnil (jsSplit_ne_nil '/' p)
  rw [List.concat_eq_append] at hsplit
  rw [hsplit, sourceSegs_concat]
  have hlastmem : last ∈ jsSplit '/' p := by rw [hsplit]; simp
  have hinitmem : ∀ g ∈ init, g ∈ jsSplit '/' p := by
    intro g hg; rw [hsplit]; exact List.mem_append_left _ hg
  have hfree : ∀ g ∈ init.map encSeg ++ [flagSeg ip ie (encSeg last)], '/' ∉ g := by
    intro g hg
    rcases List.mem_append.1 hg with hg | hg
    · obtain ⟨part, hpart, rfl⟩ := List.mem_map.1 hg
      exact slash_not_mem_encSeg part (not_mem_of_mem_jsSplit '/' p part (hinitmem part hpart))
    · rw [List.mem_singleton.1 hg]
      exact slash_not_mem_flagSeg ip ie _
        (slash_not_mem_encSeg last (not_mem_of_mem_jsSplit '/' p last hlastmem))
  have hne : init.map encSeg ++ [flagSeg ip ie (encSeg last)] ≠ [] := by simp
  unfold toTargetName
  rw [jsSplit_jsJoin '/' _ hne hfree, List.map_append, List.map_map]
  have hinit : init.map (decSeg ∘ encSeg) = init := by
    rw [List.map_congr_left (fun g hg => ?_), List.map_id]
    obtain ⟨_, hd, hp, he⟩ := hseg g (hinitmem g hg)
    exact decSeg_encSeg g hd hp he
  obtain ⟨_, hd, hp, he⟩ := hseg last hlastmem
  have hlast : decSeg (flagSeg ip ie (encSeg last)) = last := by
    cases ip with
    | false =>
      cases ie with
      | false => rw [flagSeg_false_false]; exact decSeg_encSeg last hd hp he
      | true =>
        show decSeg (str "executable_" ++ encSeg last) = last
        exact decSeg_executable_encSeg last hd hp
    | true =>
      cases ie with
      | false =>
        show decSeg (str "private_" ++ encSeg last) = last
        exact decSeg_private_encSeg last hd he
      | true => exact absurd ⟨rfl, rfl⟩ hflags
  rw [hinit, List.map_cons, List.map_nil, hlast, ← hsplit]
  exact jsJoin_jsSplit '/' p

/-- C1 witness: the round-trip theorem instantiated at `.config/nvim` with
the private flag only. -/
theorem toTargetName_toSourceName_witness :
    (∀ g ∈ jsSplit '/' (str ".config/nvim"), g ≠ [] ∧ (str "dot_").isPrefixOf g = false ∧
      (str "private_").isPrefixOf g = false ∧ (str "executable_").isPrefixOf g = false) ∧
    ¬(true = true ∧ false = true) ∧
    toTargetName (toSourceName (str ".config/nvim") true false) = str ".config/nvim" :=
  ⟨by decide, by decide,
    toTargetName_toSourceName (str ".config/nvim") true false (by decide) (by decide)⟩

/-- C2 counterexample: the claim that `priv = true` always yields mode
`0o600` fails when the executable flag is also set: the encoded basename is
`executable_private_…`, which `isPrivateSource` does not recognise (no
segment starts with `private_`), so `getFileMode` returns `0o755`. -/
theorem mode_both_flags_counterexample :
    getFileMode (toSourceName (str ".foo") true true) ≠ 0o600 := by decide

/-- C2 (amended): mode derivation from flags.  For every relative target
path with nonempty segments free of the `private_`/`executable_` prefixes,
the mode computed from the encoded name is `0o600` when only the private
flag is set, `0o755` whenever the executable flag is set (including the
both-flags case, where the outer `executable_` prefix hides the private
marker), and `0o644` when neither is set. -/
theorem getFileMode_toSourceName (p : JSStr) (ip ie : Bool)
    (hseg : ∀ g ∈ jsSplit '/' p, g ≠ [] ∧
      (str "private_").isPrefixOf g = false ∧ (str "executable_").isPrefixOf g = false) :
    getFileMode (toSourceName p ip ie) =
      if ip && !ie then 0o600 else if ie then 0o755 else 0o644 := by
  rw [toSourceName_eq_join]
  rcases List.eq_nil_or_concat (jsSplit '/' p) with hnil | ⟨init, last, hsplit⟩
  · exact absurd hnil (jsSplit_ne_nil '/' p)
  rw [List.concat_eq_append] at hsplit
  rw [hsplit, sourceSegs_concat]
  have hlastmem : last ∈ jsSplit '/' p := by rw [hsplit]; simp
  have hinitmem : ∀ g ∈ init, g ∈ jsSplit '/' p := by
    intro g hg; rw [hsplit]; exact List.mem_append_left _ hg
  have hfree : ∀ g ∈ init.map encSeg ++ [flagSeg ip ie (encSeg last)], '/' ∉ g := by
    intro g hg
    rcases List.mem_append.1 hg with hg | hg
    · obtain ⟨part, hpart, rfl⟩ := List.mem_map.1 hg
      exact slash_not_mem_encSeg part (not_mem_of_mem_jsSplit '/' p part (hinitmem part hpart))
    · rw [List.mem_singleton.1 hg]
      exact slash_not_mem_flagSeg ip ie _
        (slash_not_mem_encSeg last (not_mem_of_mem_jsSplit '/' p last hlastmem))
  have hne : init.map encSeg ++ [flagSeg ip ie (encSeg last)] ≠ [] := by simp
  have hprivA : (init.map encSeg).any (fun g => (str "private_").isPrefixOf g) = false := by
    rw [List.any_eq_false]
    intro g hg
    obtain ⟨part, hpart, rfl⟩ := List.mem_map.1 hg
    rw [priv_not_pre_encSeg part (hseg part (hinitmem part hpart)).2.1]
    simp
  obtain ⟨_, hpl, hel⟩ := hseg last hlastmem
  unfold getFileMode
  rw [isPrivateSource_join _ hne hfree, isExecutableSource_join _ hne hfree,
    List.getLastD_concat, List.any_append]
  cases ip with
  | true =>
    cases ie with
    | false =>
      have hX : (str "private_").isPrefixOf (flagSeg true false (encSeg last)) = true := by
        show (str "private_").isPrefixOf (str "private_" ++ encSeg last) = true
        exact isPrefixOf_append_self _ _
      simp [hX]
    | true =>
      have hX : (str "private_").isPrefixOf (flagSeg true true (encSeg last)) = false := by
        show (str "private_").isPrefixOf
          (str "executable_" ++ (str "private_" ++ encSeg last)) = false
        exact priv_not_pre_execu _
      have hE : (str "executable_").isPrefixOf (flagSeg true true (encSeg last)) = true := by
        show (str "executable_").isPrefixOf
          (str "executable_" ++ (str "private_" ++ encSeg last)) = true
        exact isPrefixOf_append_self _ _
      simp [hX, hE, hprivA, List.any_cons]
  | false =>
    cases ie with
    | false =>
      have hX : (str "private_").isPrefixOf (flagSeg false false (encSeg last)) = false := by
        rw [flagSeg_false_false]
        exact priv_not_pre_encSeg last hpl
      have hE : (str "executable_").isPrefixOf (flagSeg false false (encSeg last)) = false := by
        rw [flagSeg_false_false]
        exact exec_not_pre_encSeg last hel
      simp [hX, hE, hprivA, List.any_cons]
    | true =>
      have hX : (str "private_").isPrefixOf (flagSeg false true (encSeg last)) = false := by
        show (str "private_").isPrefixOf (str "executable_" ++ encSeg last) = false
        exact priv_not_pre_execu _
      have hE : (str "executable_").isPrefixOf (flagSeg false true (encSeg last)) = true := by
        show (str "executable_").isPrefixOf (str "executable_" ++ encSeg last) = true
        exact isPrefixOf_append_self _ _
      simp [hX, hE, hprivA, List.any_cons]

/-- C2 witness: the mode theorem instantiated at `.ssh/config` with the
private flag only, giving mode `0o600`. -/
theorem getFileMode_toSourceName_witness :
    (∀ g ∈ jsSplit '/' (str ".ssh/config"), g ≠ [] ∧
      (str "private_").isPrefixOf g = false ∧ (str "executable_").isPrefixOf g = false) ∧
    getFileMode (toSourceName (str ".ssh/config") true false) =
      (if true && !false then 0o600 else if false then 0o755 else 0o644) :=
  ⟨by decide, getFileMode_toSourceName (str ".ssh/config") true false (by decide)⟩

/-- C3 counterexample: the claimed nested default-merge fails.  For a stored
config whose `dots` object is present but empty, `loadConfig` returns that
empty object unchanged — its `sourceDir` key stays missing even though the
built-in default provides one, because `{...DEFAULT_CONFIG, ...config}` is
a shallow top-level spread. -/
theorem loadConfig_nested_merge_counterexample :
    (loadConfig true (some dotsOnlyStored)).config.dots.map PDots.sourceDir = some none ∧
    DEFAULT_CONFIG.dots.map PDots.sourceDir = some (some (str "~/.local/share/chezmoi")) :=
  ⟨rfl, rfl⟩

/-- C3 (amended): config default-merge.  `loadConfig` fills every missing
top-level key with the built-in default's value for that key, while a
top-level key present in the stored file — including a partial nested
object such as `dots` — is taken as-is, verbatim, so missing nested keys
inside it are not filled; every top-level key is therefore present after
loading and the load never fails hard.  On a parse failure it reports the
problem, returns the full defaults for that run, and does not overwrite
the config file (it writes only when the file does not exist yet). -/
theorem loadConfig_amended :
    (∀ parsedObj : PConfig,
      (parsedObj.ai = none →
        (loadConfig true (some parsedObj)).config.ai = DEFAULT_CONFIG.ai) ∧
      (∀ a, parsedObj.ai = some a →
        (loadConfig true (some parsedObj)).config.ai = some a) ∧
      (parsedObj.updates = none →
        (loadConfig true (some parsedObj)).config.updates = DEFAULT_CONFIG.updates) ∧
      (∀ u, parsedObj.updates = some u →
        (loadConfig true (some parsedObj)).config.updates = some u) ∧
      (parsedObj.dots = none →
        (loadConfig true (some parsedObj)).config.dots = DEFAULT_CONFIG.dots) ∧
      (∀ d, parsedObj.dots = some d →
        (loadConfig true (some parsedObj)).config.dots = some d) ∧
      (loadConfig true (some parsedObj)).wroteDefaults = false ∧
      (loadConfig true (some parsedObj)).reportedParseError = false) ∧
    (∀ (fileExists : Bool) (parsed : Option PConfig),
      (loadConfig fileExists parsed).config.ai.isSome = true ∧
      (loadConfig fileExists parsed).config.updates.isSome = true ∧
      (loadConfig fileExists parsed).config.dots.isSome = true) ∧
    (loadConfig true none).config = DEFAULT_CONFIG ∧
    (loadConfig true none).reportedParseError = true ∧
    (loadConfig true none).wroteDefaults = false ∧
    (loadConfig false none).config = DEFAULT_CONFIG ∧
    (loadConfig false none).wroteDefaults = true := by
  refine ⟨fun parsedObj => ?_, fun fileExists parsed => ?_, rfl, rfl, rfl, rfl, rfl⟩
  · refine ⟨fun h => ?_, fun a h => ?_, fun h => ?_, fun u h => ?_,
      fun h => ?_, fun d h => ?_, rfl, rfl⟩ <;>
      simp [loadConfig, jsSpread, h]
  · cases fileExists with
    | false => exact ⟨rfl, rfl, rfl⟩
    | true =>
      cases parsed with
      | none => exact ⟨rfl, rfl, rfl⟩
      | some c =>
        exact ⟨jsSpread_some_isSome _ c.ai, jsSpread_some_isSome _ c.updates,
          jsSpread_some_isSome _ c.dots⟩

/-- C3 witness: the amended merge theorem instantiated at the stored config
with `ai`/`updates` missing and a present-but-empty `dots` block: the two
missing top-level keys come back with the default values and the partial
`dots` object comes back verbatim. -/
theorem loadConfig_amended_witness :
    dotsOnlyStored.ai = none ∧
    (loadConfig true (some dotsOnlyStored)).config.ai = DEFAULT_CONFIG.ai ∧
    dotsOnlyStored.updates = none ∧
    (loadConfig true (some dotsOnlyStored)).config.updates = DEFAULT_CONFIG.updates ∧
    dotsOnlyStored.dots = some emptyPDots ∧
    (loadConfig true (some dotsOnlyStored)).config.dots = some emptyPDots :=
  ⟨rfl, (loadConfig_amended.1 dotsOnlyStored).1 rfl,
   rfl, (loadConfig_amended.1 dotsOnlyStored).2.2.1 rfl,
   rfl, (loadConfig_amended.1 dotsOnlyStored).2.2.2.2.2.1 emptyPDots rfl⟩

/-- C4: privacy/executability detection asymmetry.  For every source path
`s`, `isPrivateSource s` holds exactly when the basename starts with
`private_` or some path segment starts with `private_`, while
`isExecutableSource s` holds exactly when the basename starts with
`executable_` — ancestor segments are never consulted. -/
theorem privacy_detection_characterization (s : JSStr) :
    (isPrivateSource s = true ↔
      (str "private_" <+: basename s ∨ ∃ g ∈ jsSplit '/' s, str "private_" <+: g)) ∧
    (isExecutableSource s = true ↔ str "executable_" <+: basename s) := by
  constructor
  · unfold isPrivateSource
    simp [List.any_eq_true, List.isPrefixOf_iff_prefix]
  · unfold isExecutableSource
    simp [ List.isPrefixOf_iff_prefix]

/-- C5: conservative drift comparison.  `filesAreDifferent` returns `false`
exactly when both files exist and both reads succeed with equal content; a
missing file or a read failure makes it return `true`, and since it is a
total `Bool`-valued function (the source catches every exception), no error
ever propagates to the caller. -/
theorem filesAreDifferent_false_iff (fs : SimFS) (file1 file2 : JSStr) :
    filesAreDifferent fs file1 file2 = false ↔
      (fs.hasFile file1 = true ∧ fs.hasFile file2 = true ∧
        ∃ c1 c2, fs.readF file1 = Except.ok c1 ∧ fs.readF file2 = Except.ok c2 ∧
          c1 = c2) := by
  unfold filesAreDifferent
  cases h1 : fs.hasFile file1 with
  | false => simp [h1]
  | true =>
    cases h2 : fs.hasFile file2 with
    | false => simp [h1, h2]
    | true =>
      simp only [h1, h2, Bool.not_true, Bool.or_self, Bool.false_eq_true, if_false]
      cases hr1 : fs.readF file1 with
      | error e1 => simp [hr1]
      | ok c1 =>
        cases hr2 : fs.readF file2 with
        | error e2 => simp [hr1, hr2]
        | ok c2 => simp [hr1, hr2, bne_eq_false_iff_eq]

/-- C6: auto-push gating.  When the commit message is nonempty (always true
for add/remove, and for sync with repo-bound changes — the only situations
in which the mutating commands call the helper) and git itself runs, the
helper commits and pushes exactly when `autoPush` is enabled and the source
directory contains a `.git` entry; enabled-but-not-a-repo produces only the
skip warning; a non-zero push exit code produces only a warning while the
commit and push were still attempted; and the helper performs no filesystem
mutation at all, so the preceding file-level change is never rolled back. -/
theorem gitCommitAndPush_gating (autoPush gitRepoExists : Bool) (pushExitCode : Nat)
    (options : GitCommitOptions)
    (hmsg : (buildCommitMessage options).isSome = true) :
    ((gitCommitAndPush autoPush gitRepoExists true pushExitCode options).attemptedCommit = true ∧
      (gitCommitAndPush autoPush gitRepoExists true pushExitCode options).attemptedPush = true ↔
      autoPush = true ∧ gitRepoExists = true) ∧
    (autoPush = true → gitRepoExists = false →
      (gitCommitAndPush autoPush gitRepoExists true pushExitCode options).warnedNotRepo = true ∧
      (gitCommitAndPush autoPush gitRepoExists true pushExitCode options).attemptedCommit = false ∧
      (gitCommitAndPush autoPush gitRepoExists true pushExitCode options).attemptedPush = false) ∧
    (autoPush = true → gitRepoExists = true → pushExitCode ≠ 0 →
      (gitCommitAndPush autoPush gitRepoExists true pushExitCode options).warnedPushFailed = true ∧
      (gitCommitAndPush autoPush gitRepoExists true pushExitCode options).attemptedCommit = true ∧
      (gitCommitAndPush autoPush gitRepoExists true pushExitCode options).attemptedPush = true) ∧
    (gitCommitAndPush autoPush gitRepoExists true pushExitCode options).fileWrites = [] ∧
    (gitCommitAndPush autoPush gitRepoExists true pushExitCode options).fileDeletes = [] := by
  obtain ⟨m, hm⟩ := Option.isSome_iff_exists.1 hmsg
  cases autoPush with
  | false => simp [gitCommitAndPush]
  | true =>
    cases gitRepoExists with
    | false => simp [gitCommitAndPush]
    | true =>
      by_cases hp : pushExitCode = 0
      · subst hp
        simp [gitCommitAndPush, hm]
      · have hp2 : (pushExitCode == 0) = false := by
          simp [hp]
        simp [gitCommitAndPush, hm, hp2]

/-- C6 witness: the gating theorem instantiated at a single-file add with
auto-push enabled, a git repository present, and a failing push (exit 1). -/
theorem gitCommitAndPush_gating_witness :
    (buildCommitMessage gitOptionsExample).isSome = true ∧
    (((gitCommitAndPush true true true 1 gitOptionsExample).attemptedCommit = true ∧
      (gitCommitAndPush true true true 1 gitOptionsExample).attemptedPush = true ↔
      true = true ∧ true = true) ∧
    (true = true → true = false →
      (gitCommitAndPush true true true 1 gitOptionsExample).warnedNotRepo = true ∧
      (gitCommitAndPush true true true 1 gitOptionsExample).attemptedCommit = false ∧
      (gitCommitAndPush true true true 1 gitOptionsExample).attemptedPush = false) ∧
    (true = true → true = true → (1 : Nat) ≠ 0 →
      (gitCommitAndPush true true true 1 gitOptionsExample).warnedPushFailed = true ∧
      (gitCommitAndPush true true true 1 gitOptionsExample).attemptedCommit = true ∧
      (gitCommitAndPush true true true 1 gitOptionsExample).attemptedPush = true) ∧
    (gitCommitAndPush true true true 1 gitOptionsExample).fileWrites = [] ∧
    (gitCommitAndPush true true true 1 gitOptionsExample).fileDeletes = []) :=
  ⟨rfl, gitCommitAndPush_gating true true 1 gitOptionsExample rfl⟩

/-- C7: apply is a no-op on a synced tree.  When every non-`.git` source
file's decoded target exists with identical content (both reads succeed and
agree), `dotsApply` produces exactly the scan message followed by the
success message: no prompt is shown, no file is written, no permission is
changed, and the function returns right after the success report. -/
theorem dotsApply_noop_when_synced (fs : SimFS) (sourceDir targetDir : JSStr)
    (sourceFiles selection : List JSStr) (script : JSStr → List MenuChoice)
    (hsync : ∀ f ∈ sourceFiles, isGitPath f = false →
      ∃ c, fs.hasFile (pjoin sourceDir f) = true ∧
        fs.hasFile (pjoin targetDir (toTargetName f)) = true ∧
        fs.readF (pjoin sourceDir f) = Except.ok c ∧
        fs.readF (pjoin targetDir (toTargetName f)) = Except.ok c) :
    dotsApply fs true sourceDir targetDir sourceFiles selection script =
      [ApplyEffect.scanInfo, ApplyEffect.allInSyncSuccess] := by
  have hempty : computeFilesToApply fs sourceDir targetDir sourceFiles = [] := by
    unfold computeFilesToApply
    rw [List.filterMap_eq_nil_iff]
    intro f hf
    cases hg : isGitPath f with
    | true => simp [hg]
    | false =>
      obtain ⟨c, h1, h2, hr1, hr2⟩ := hsync f hf hg
      simp [hg, filesAreDifferent_false_of_ok fs _ _ c h1 h2 hr1 hr2]
  unfold dotsApply
  simp [hempty]

/-- C7 witness: the no-op theorem instantiated on a one-file filesystem
whose repo and home copies agree. -/
theorem dotsApply_noop_when_synced_witness :
    (∀ f ∈ [str "dot_zshrc"], isGitPath f = false →
      ∃ c, syncedFsExample.hasFile (pjoin (str "repo") f) = true ∧
        syncedFsExample.hasFile (pjoin (str "home") (toTargetName f)) = true ∧
        syncedFsExample.readF (pjoin (str "repo") f) = Except.ok c ∧
        syncedFsExample.readF (pjoin (str "home") (toTargetName f)) = Except.ok c) ∧
    dotsApply syncedFsExample true (str "repo") (str "home") [str "dot_zshrc"] []
        (fun _ => []) = [ApplyEffect.scanInfo, ApplyEffect.allInSyncSuccess] := by
  have hsync : ∀ f ∈ [str "dot_zshrc"], isGitPath f = false →
      ∃ c, syncedFsExample.hasFile (pjoin (str "repo") f) = true ∧
        syncedFsExample.hasFile (pjoin (str "home") (toTargetName f)) = true ∧
        syncedFsExample.readF (pjoin (str "repo") f) = Except.ok c ∧
        syncedFsExample.readF (pjoin (str "home") (toTargetName f)) = Except.ok c := by
    intro f hf _
    simp only [List.mem_singleton] at hf
    subst hf
    exact ⟨"content", by decide, by decide, rfl, rfl⟩
  exact ⟨hsync, dotsApply_noop_when_synced syncedFsExample (str "repo") (str "home")
    [str "dot_zshrc"] [] (fun _ => []) hsync⟩

/-- C8: remove touches only the source tree.  When the argument resolves
inside the home directory and a source file decodes to the target-relative
path, `dotsRm` shows the confirmation prompt; on confirmation its trace is
exactly prompt, unlink of that one source file, success message, the note
that the target was kept, and the auto-push hand-off — every unlink in the
trace is that source path, the target-tree file's path is never unlinked,
and on declined confirmation nothing at all is unlinked. -/
theorem dotsRm_source_only (home cwd sourceDir : JSStr) (sourceFiles : List JSStr)
    (targetPath foundSource : JSStr)
    (habs : home.isPrefixOf (resolveAbsolute home cwd targetPath) = true)
    (hfind : sourceFiles.find? (fun sourceFile => toTargetName sourceFile ==
      jsRelative home (resolveAbsolute home cwd targetPath)) = some foundSource)
    (hdistinct : pjoin sourceDir foundSource ≠
      pjoin home (jsRelative home (resolveAbsolute home cwd targetPath))) :
    toTargetName foundSource = jsRelative home (resolveAbsolute home cwd targetPath) ∧
    dotsRm home cwd sourceDir sourceFiles targetPath true =
      [RmEffect.confirmPrompt foundSource,
       RmEffect.unlink (pjoin sourceDir foundSource),
       RmEffect.removedSuccess foundSource,
       RmEffect.noteTargetKept (jsRelative home (resolveAbsolute home cwd targetPath)),
       RmEffect.gitAutoPush] ∧
    (∀ p, RmEffect.unlink p ∈ dotsRm home cwd sourceDir sourceFiles targetPath true →
      p = pjoin sourceDir foundSource) ∧
    RmEffect.unlink (pjoin home (jsRelative home (resolveAbsolute home cwd targetPath))) ∉
      dotsRm home cwd sourceDir sourceFiles targetPath true ∧
    (∀ p, RmEffect.unlink p ∉ dotsRm home cwd sourceDir sourceFiles targetPath false) := by
  have hdecoded : toTargetName foundSource =
      jsRelative home (resolveAbsolute home cwd targetPath) := by
    have := List.find?_some hfind
    exact eq_of_beq this
  have htrace : dotsRm home cwd sourceDir sourceFiles targetPath true =
      [RmEffect.confirmPrompt foundSource,
       RmEffect.unlink (pjoin sourceDir foundSource),
       RmEffect.removedSuccess foundSource,
       RmEffect.noteTargetKept (jsRelative home (resolveAbsolute home cwd targetPath)),
       RmEffect.gitAutoPush] := by
    unfold dotsRm
    simp only [habs, Bool.not_true, Bool.false_eq_true, if_false, hfind]
  have htrace2 : dotsRm home cwd sourceDir sourceFiles targetPath false =
      [RmEffect.confirmPrompt foundSource, RmEffect.cancelledInfo] := by
    unfold dotsRm
    simp only [habs, Bool.not_true, Bool.false_eq_true, if_false, hfind, Bool.not_false, if_true]
  refine ⟨hdecoded, htrace, ?_, ?_, ?_⟩
  · intro p hp
    rw [htrace] at hp
    simp only [List.mem_cons, List.not_mem_nil, or_false] at hp
    rcases hp with h | h | h | h | h
    · simp at h
    · injection h with h2
    · simp at h
    · simp at h
    · simp at h
  · intro hmem
    rw [htrace] at hmem
    simp only [List.mem_cons, List.not_mem_nil, or_false] at hmem
    rcases hmem with h | h | h | h | h
    · simp at h
    · injection h with h2
      exact hdistinct h2.symm
    · simp at h
    · simp at h
    · simp at h
  · intro p hmem
    rw [htrace2] at hmem
    simp at hmem

/-- C8 witness: the remove theorem instantiated with home `/home/u`,
argument `~/.zshrc`, and a repository containing `dot_zshrc`. -/
theorem dotsRm_source_only_witness :
    (str "/home/u").isPrefixOf
        (resolveAbsolute (str "/home/u") (str "/home/u") (str "~/.zshrc")) = true ∧
    ([str "dot_zshrc"].find? (fun sourceFile => toTargetName sourceFile ==
      jsRelative (str "/home/u")
        (resolveAbsolute (str "/home/u") (str "/home/u") (str "~/.zshrc"))) =
      some (str "dot_zshrc")) ∧
    pjoin (str "/home/u/repo") (str "dot_zshrc") ≠
      pjoin (str "/home/u") (jsRelative (str "/home/u")
        (resolveAbsolute (str "/home/u") (str "/home/u") (str "~/.zshrc"))) ∧
    (toTargetName (str "dot_zshrc") = jsRelative (str "/home/u")
      (resolveAbsolute (str "/home/u") (str "/home/u") (str "~/.zshrc")) ∧
    dotsRm (str "/home/u") (str "/home/u") (str "/home/u/repo") [str "dot_zshrc"]
        (str "~/.zshrc") true =
      [RmEffect.confirmPrompt (str "dot_zshrc"),
       RmEffect.unlink (pjoin (str "/home/u/repo") (str "dot_zshrc")),
       RmEffect.removedSuccess (str "dot_zshrc"),
       RmEffect.noteTargetKept (jsRelative (str "/home/u")
         (resolveAbsolute (str "/home/u") (str "/home/u") (str "~/.zshrc"))),
       RmEffect.gitAutoPush] ∧
    (∀ p, RmEffect.unlink p ∈ dotsRm (str "/home/u") (str "/home/u") (str "/home/u/repo")
        [str "dot_zshrc"] (str "~/.zshrc") true →
      p = pjoin (str "/home/u/repo") (str "dot_zshrc")) ∧
    RmEffect.unlink (pjoin (str "/home/u") (jsRelative (str "/home/u")
        (resolveAbsolute (str "/home/u") (str "/home/u") (str "~/.zshrc")))) ∉
      dotsRm (str "/home/u") (str "/home/u") (str "/home/u/repo") [str "dot_zshrc"]
        (str "~/.zshrc") true ∧
    (∀ p, RmEffect.unlink p ∉ dotsRm (str "/home/u") (str "/home/u") (str "/home/u/repo")
        [str "dot_zshrc"] (str "~/.zshrc") false)) :=
  ⟨by decide, by decide, by decide,
    dotsRm_source_only (str "/home/u") (str "/home/u") (str "/home/u/repo")
      [str "dot_zshrc"] (str "~/.zshrc") (str "dot_zshrc")
      (by decide) (by decide) (by decide)⟩

/-- C9: ignore matcher on the default pattern set.  `.DS_Store` is ignored
by the defaults, `notes.txt` is not, and for any pattern list containing
`*.swp` the file `script.swp` is ignored (suffix-glob match on the
basename). -/
theorem shouldIgnore_examples :
    shouldIgnore (str ".DS_Store") defaultIgnoredPatterns = true ∧
    shouldIgnore (str "notes.txt") defaultIgnoredPatterns = false ∧
    ∀ patterns : List JSStr, str "*.swp" ∈ patterns →
      shouldIgnore (str "script.swp") patterns = true := by
  refine ⟨by decide, by decide, fun patterns hmem => ?_⟩
  unfold shouldIgnore
  exact List.any_eq_true.2 ⟨str "*.swp", hmem, by decide⟩

/-- C9 witness: the third conjunct instantiated at the singleton pattern
list `["*.swp"]`. -/
theorem shouldIgnore_examples_witness :
    str "*.swp" ∈ [str "*.swp"] ∧ shouldIgnore (str "script.swp") [str "*.swp"] = true :=
  ⟨by decide, shouldIgnore_examples.2.2 [str "*.swp"] (by decide)⟩

/-- C10: top-level deselection in apply fully skips a file.  For every
drifted file whose target name the user left unchecked in the upfront
multi-select (with a nonduplicated selection drawn from the offered
choices, and at least one file selected so the loop runs), the per-file
iteration contributes an empty trace — no resolution menu, no write, no
chmod, no further prompt — and the deselected files are counted in the
reported skipped total: the summary's skipped count, whose first summand
`filesToApply.length - selection.length` counts them, is at least 1. -/
theorem dotsApply_deselected_skipped (fs : SimFS) (sourceDir targetDir : JSStr)
    (sourceFiles selection : List JSStr) (script : JSStr → List MenuChoice)
    (f : FileToApply)
    (hmem : f ∈ computeFilesToApply fs sourceDir targetDir sourceFiles)
    (hnotsel : f.targetName ∉ selection)
    (hselne : selection ≠ [])
    (hnodup : selection.Nodup)
    (hsub : ∀ x ∈ selection,
      x ∈ (computeFilesToApply fs sourceDir targetDir sourceFiles).map FileToApply.targetName) :
    applyFileStep selection script f = { trace := [], appliedDelta := 0, skippedDelta := 0 } ∧
    1 ≤ (computeFilesToApply fs sourceDir targetDir sourceFiles).length - selection.length ∧
    ApplyEffect.summary
        ((((computeFilesToApply fs sourceDir targetDir sourceFiles).map
          (applyFileStep selection script)).map StepResult.appliedDelta).sum)
        ((computeFilesToApply fs sourceDir targetDir sourceFiles).length - selection.length +
          (((computeFilesToApply fs sourceDir targetDir sourceFiles).map
            (applyFileStep selection script)).map StepResult.skippedDelta).sum)
      ∈ dotsApply fs true sourceDir targetDir sourceFiles selection script := by
  refine ⟨?_, ?_, ?_⟩
  · unfold applyFileStep
    rw [if_neg hnotsel]
  · have hfname : f.targetName ∈
        (computeFilesToApply fs sourceDir targetDir sourceFiles).map FileToApply.targetName :=
      List.mem_map_of_mem _ hmem
    have hsubset : selection ⊆
        ((computeFilesToApply fs sourceDir targetDir sourceFiles).map
          FileToApply.targetName).erase f.targetName := by
      intro x hx
      have hxne : x ≠ f.targetName := fun hxe => hnotsel (hxe ▸ hx)
      exact (List.mem_erase_of_ne hxne).2 (hsub x hx)
    have hle : selection.length ≤
        (((computeFilesToApply fs sourceDir targetDir sourceFiles).map
          FileToApply.targetName).erase f.targetName).length :=
      (hnodup.subperm hsubset).length_le
    have herase := List.length_erase_of_mem hfname
    have hmaplen : ((computeFilesToApply fs sourceDir targetDir sourceFiles).map
        FileToApply.targetName).length =
        (computeFilesToApply fs sourceDir targetDir sourceFiles).length :=
      List.length_map _ _
    have hpos : 1 ≤ ((computeFilesToApply fs sourceDir targetDir sourceFiles).map
        FileToApply.targetName).length := List.length_pos.2 (List.ne_nil_of_mem hfname)
    omega
  · have hftane : (computeFilesToApply fs sourceDir targetDir sourceFiles).isEmpty = false := by
      rw [List.isEmpty_eq_false]
      exact List.ne_nil_of_mem hmem
    have hselemp : selection.isEmpty = false := by
      rw [List.isEmpty_eq_false]
      exact hselne
    unfold dotsApply
    simp only [Bool.not_true, Bool.false_eq_true, if_false, hftane, hselemp]
    simp [List.mem_append]

/-- C10 witness: the deselection theorem instantiated with two new files of
which the user selects only `.b`, leaving `.a` unchecked. -/
theorem dotsApply_deselected_skipped_witness :
    deselectedFileExample ∈
      computeFilesToApply newFilesFsExample (str "repo") (str "home")
        [str "dot_a", str "dot_b"] ∧
    deselectedFileExample.targetName ∉ [str ".b"] ∧
    [str ".b"] ≠ ([] : List JSStr) ∧
    ([str ".b"] : List JSStr).Nodup ∧
    (∀ x ∈ [str ".b"],
      x ∈ (computeFilesToApply newFilesFsExample (str "repo") (str "home")
        [str "dot_a", str "dot_b"]).map FileToApply.targetName) ∧
    (applyFileStep [str ".b"] (fun _ => []) deselectedFileExample =
      { trace := [], appliedDelta := 0, skippedDelta := 0 } ∧
    1 ≤ (computeFilesToApply newFilesFsExample (str "repo") (str "home")
      [str "dot_a", str "dot_b"]).length - ([str ".b"] : List JSStr).length ∧
    ApplyEffect.summary
        ((((computeFilesToApply newFilesFsExample (str "repo") (str "home")
          [str "dot_a", str "dot_b"]).map
          (applyFileStep [str ".b"] (fun _ => []))).map StepResult.appliedDelta).sum)
        ((computeFilesToApply newFilesFsExample (str "repo") (str "home")
          [str "dot_a", str "dot_b"]).length - ([str ".b"] : List JSStr).length +
          (((computeFilesToApply newFilesFsExample (str "repo") (str "home")
            [str "dot_a", str "dot_b"]).map
            (applyFileStep [str ".b"] (fun _ => []))).map StepResult.skippedDelta).sum)
      ∈ dotsApply newFilesFsExample true (str "repo") (str "home")
          [str "dot_a", str "dot_b"] [str ".b"] (fun _ => [])) :=
  ⟨by decide, by decide, by decide, by decide, by decide,
    dotsApply_deselected_skipped newFilesFsExample (str "repo") (str "home")
      [str "dot_a", str "dot_b"] [str ".b"] (fun _ => []) deselectedFileExample
      (by decide) (by decide) (by decide) (by decide) (by decide)⟩
